import Mathlib

/-!
Verification development for the `ls` re-implementation in this repository
(`src/ls.c`, current version, and `src/ls-v1.1.0.c`, the earlier long-listing
version).  Each C function relevant to the specification is embedded as a
computable Lean definition; theorems at the end settle the specification
claims against those definitions.

Conventions of the embedding:
* `mode_t` values are `Nat`s; bit tests use `&&&` exactly as the C does.
* C strings are Lean `String`s; rendered output text is `List Char`.
* Fallible system calls (`opendir`, `lstat`, `readlink`, `getpwuid`,
  `localtime`) are modelled as `Option`-valued inputs or environment fields.
* `size_t` loop arithmetic is `Nat` arithmetic (the C never underflows in the
  places that matter: each subtraction is guarded, and the guards are kept).
-/

namespace Ls

/-! ## File-type and permission bits (from `<sys/stat.h>`, as used by the C) -/

def S_IFMT   : Nat := 0o170000
def S_IFDIR  : Nat := 0o040000
def S_IFLNK  : Nat := 0o120000
def S_IFCHR  : Nat := 0o020000
def S_IFBLK  : Nat := 0o060000
def S_IFIFO  : Nat := 0o010000
def S_IFSOCK : Nat := 0o140000
def S_IFREG  : Nat := 0o100000

def S_ISUID : Nat := 0o4000
def S_ISGID : Nat := 0o2000
def S_ISVTX : Nat := 0o1000

def S_IRUSR : Nat := 0o400
def S_IWUSR : Nat := 0o200
def S_IXUSR : Nat := 0o100
def S_IRGRP : Nat := 0o040
def S_IWGRP : Nat := 0o020
def S_IXGRP : Nat := 0o010
def S_IROTH : Nat := 0o004
def S_IWOTH : Nat := 0o002
def S_IXOTH : Nat := 0o001

def S_ISDIR  (m : Nat) : Bool := m &&& S_IFMT == S_IFDIR
def S_ISLNK  (m : Nat) : Bool := m &&& S_IFMT == S_IFLNK
def S_ISCHR  (m : Nat) : Bool := m &&& S_IFMT == S_IFCHR
def S_ISBLK  (m : Nat) : Bool := m &&& S_IFMT == S_IFBLK
def S_ISFIFO (m : Nat) : Bool := m &&& S_IFMT == S_IFIFO
def S_ISSOCK (m : Nat) : Bool := m &&& S_IFMT == S_IFSOCK

/-! ## Permission encoders

`build_perm_string` embeds `build_perm_string` of `src/ls.c` (lines 124-143):
it starts from `"----------"`, sets the type glyph, and overwrites the nine
permission slots from the plain `rwx` bits only — the special bits
(setuid/setgid/sticky) are never consulted.

`build_perm_string_v110` embeds `build_perm_string` of `src/ls-v1.1.0.c`
(lines 43-79): same type glyph, but the three execute slots are combined with
setuid (`s`/`S`), setgid (`s`/`S`) and the sticky bit (`t`/`T`).

Both produce exactly 10 characters (the C NUL terminator is not part of the
string). -/

def type_glyph (m : Nat) : Char :=
  if S_ISDIR m then 'd'
  else if S_ISLNK m then 'l'
  else if S_ISCHR m then 'c'
  else if S_ISBLK m then 'b'
  else if S_ISFIFO m then 'p'
  else if S_ISSOCK m then 's'
  else '-'

def build_perm_string (m : Nat) : List Char :=
  [type_glyph m,
   if m &&& S_IRUSR != 0 then 'r' else '-',
   if m &&& S_IWUSR != 0 then 'w' else '-',
   if m &&& S_IXUSR != 0 then 'x' else '-',
   if m &&& S_IRGRP != 0 then 'r' else '-',
   if m &&& S_IWGRP != 0 then 'w' else '-',
   if m &&& S_IXGRP != 0 then 'x' else '-',
   if m &&& S_IROTH != 0 then 'r' else '-',
   if m &&& S_IWOTH != 0 then 'w' else '-',
   if m &&& S_IXOTH != 0 then 'x' else '-']

def build_perm_string_v110 (m : Nat) : List Char :=
  [type_glyph m,
   if m &&& S_IRUSR != 0 then 'r' else '-',
   if m &&& S_IWUSR != 0 then 'w' else '-',
   if m &&& S_ISUID != 0 then (if m &&& S_IXUSR != 0 then 's' else 'S')
   else (if m &&& S_IXUSR != 0 then 'x' else '-'),
   if m &&& S_IRGRP != 0 then 'r' else '-',
   if m &&& S_IWGRP != 0 then 'w' else '-',
   if m &&& S_ISGID != 0 then (if m &&& S_IXGRP != 0 then 's' else 'S')
   else (if m &&& S_IXGRP != 0 then 'x' else '-'),
   if m &&& S_IROTH != 0 then 'r' else '-',
   if m &&& S_IWOTH != 0 then 'w' else '-',
   if m &&& S_ISVTX != 0 then (if m &&& S_IXOTH != 0 then 't' else 'T')
   else (if m &&& S_IXOTH != 0 then 'x' else '-')]

/-- Modelled from the spec (§4.3 of the specification document), for the
refinement comparison only: the claimed encoding — type glyph first-match in
the priority order d, l, c, b, p, s, `-`; read/write slots `r`/`-`, `w`/`-`;
the three execute slots combined with setuid (`s`/`S`), setgid (`s`/`S`) and
the sticky bit (`t`/`T`), `x`/`-` otherwise. -/
def encode_spec (m : Nat) : List Char :=
  [type_glyph m,
   if m &&& S_IRUSR != 0 then 'r' else '-',
   if m &&& S_IWUSR != 0 then 'w' else '-',
   if m &&& S_ISUID != 0 then (if m &&& S_IXUSR != 0 then 's' else 'S')
   else (if m &&& S_IXUSR != 0 then 'x' else '-'),
   if m &&& S_IRGRP != 0 then 'r' else '-',
   if m &&& S_IWGRP != 0 then 'w' else '-',
   if m &&& S_ISGID != 0 then (if m &&& S_IXGRP != 0 then 's' else 'S')
   else (if m &&& S_IXGRP != 0 then 'x' else '-'),
   if m &&& S_IROTH != 0 then 'r' else '-',
   if m &&& S_IWOTH != 0 then 'w' else '-',
   if m &&& S_ISVTX != 0 then (if m &&& S_IXOTH != 0 then 't' else 'T')
   else (if m &&& S_IXOTH != 0 then 'x' else '-')]

/-! ## Long-format timestamp selection

`src/ls-v1.1.0.c` (`print_long_listing`, lines 226-260) compares the entry's
mtime against `now` with threshold `60*60*24*30*6` seconds and picks the
`strftime` format `"%b %e  %Y"` (year form) or `"%b %e %H:%M"` (hour-minute
form); when `localtime` fails it uses the placeholder `"??? ?? ??:??"`.

`src/ls.c` (`print_long_listing`, lines 185-198) has no threshold at all: it
always uses `"%b %e %H:%M"` when `localtime` succeeds.

The selected form is the observable we can settle without a calendar model;
the inductive `TimeForm` records it.  `ok` is the success of `localtime`. -/

inductive TimeForm where
  | year : TimeForm
  | hm : TimeForm
  | unk : TimeForm
deriving DecidableEq

def six_months : Int := 60 * 60 * 24 * 30 * 6

def v110_time_form (ok : Bool) (now mtime : Int) : TimeForm :=
  match ok with
  | false => TimeForm.unk
  | true =>
    if now - mtime > six_months ∨ mtime - now > six_months then TimeForm.year
    else TimeForm.hm

def ls_time_form (ok : Bool) : TimeForm :=
  match ok with
  | false => TimeForm.unk
  | true => TimeForm.hm

def time_format_string : TimeForm → String
  | TimeForm.year => "%b %e  %Y"
  | TimeForm.hm => "%b %e %H:%M"
  | TimeForm.unk => "??? ?? ??:??"

/-! ## Data model (`entry_t` of `src/ls.c`) and the metadata reader

`struct stat` is reduced to the fields the program reads.  A raw directory
stream (`readdir` results, in on-disk order) is a list of `RawDirent`s; the
`lstat` result for the child is `Option Stat` (`none` = `lstat` failed) and
the `readlink` result is `Option String` (`none` = `readlink` failed). -/

structure Stat where
  mode : Nat
  nlink : Nat
  uid : Nat
  gid : Nat
  size : Int
  mtime : Int
deriving DecidableEq, Repr

structure Entry where
  name : String
  st : Stat
  is_link : Bool
  link_target : String
deriving DecidableEq, Repr

structure RawDirent where
  d_name : String
  lst : Option Stat
  readlink_res : Option String
deriving DecidableEq, Repr

/-- `dp->d_name[0] == '.'` — false for the empty string (whose first byte is
the NUL terminator in C). -/
def name_is_hidden (s : String) : Bool :=
  match s.data with
  | [] => false
  | c :: _ => c == '.'

/-- `snprintf(fullpath, ..., "%s/%s", path, name)` as used by
`read_dir_entries`. -/
def full_path (path name : String) : String :=
  path ++ "/" ++ name

/-- The entry built for one surviving child: `is_link` and `link_target`
start as `0`/empty and are overwritten only when `S_ISLNK` holds, in which
case the `readlink` text is recorded (left empty when `readlink` fails). -/
def entry_of (de : RawDirent) (st : Stat) : Entry :=
  if S_ISLNK st.mode then
    { name := de.d_name, st := st, is_link := true,
      link_target := de.readlink_res.getD "" }
  else
    { name := de.d_name, st := st, is_link := false, link_target := "" }

/-- `read_dir_entries` of `src/ls.c` (lines 47-114), after `opendir`
succeeded: skip names starting with `.`; `lstat` each remaining child without
following symlinks; on `lstat` failure report the full path (`perror`) and
skip the child; otherwise keep `entry_of`.  Returns the entry array and the
reported error paths (the `stderr` channel). -/
def read_dir_entries_r (path : String) : List RawDirent → List Entry × List String
  | [] => ([], [])
  | de :: rest =>
    let r := read_dir_entries_r path rest
    if name_is_hidden de.d_name then r
    else
      match de.lst with
      | none => (r.1, full_path path de.d_name :: r.2)
      | some st => (entry_of de st :: r.1, r.2)

/-- The all-zero `struct stat` that `collect_directory` of
`src/ls-v1.1.0.c` fills in when `lstat` fails (lines 149-156). -/
def zero_stat : Stat :=
  { mode := 0, nlink := 0, uid := 0, gid := 0, size := 0, mtime := 0 }

/-- The entry loop of `collect_directory` in `src/ls-v1.1.0.c`
(lines 117-171): skip names starting with `.`; on `lstat` failure the child
is KEPT, its metadata zero-filled, and nothing is reported (that loop has no
`perror`; only `opendir` and allocation failures are reported in v1.1.0);
otherwise the entry is built as in the current reader.  The second component
is the loop's `stderr` channel, empty by construction. -/
def collect_directory_r (path : String) : List RawDirent → List Entry × List String
  | [] => ([], [])
  | de :: rest =>
    let r := collect_directory_r path rest
    if name_is_hidden de.d_name then r
    else
      match de.lst with
      | none =>
        ({ name := de.d_name, st := zero_stat, is_link := false,
           link_target := "" } :: r.1, r.2)
      | some st => (entry_of de st :: r.1, r.2)

/-! ## Sorting (`qsort` with `cmp_entries`, i.e. `strcmp` on names) -/

def insert_by_name (e : Entry) : List Entry → List Entry
  | [] => [e]
  | x :: xs => if e.name ≤ x.name then e :: x :: xs else x :: insert_by_name e xs

def sortEntries : List Entry → List Entry
  | [] => []
  | x :: xs => insert_by_name x (sortEntries xs)

/-! ## Color classifier (`has_archive_ext`, `print_with_color` of `src/ls.c`) -/

def COLOR_RESET   : List Char := "\x1b[0m".data
def COLOR_BLUE    : List Char := "\x1b[1;34m".data
def COLOR_GREEN   : List Char := "\x1b[1;32m".data
def COLOR_RED     : List Char := "\x1b[1;31m".data
def COLOR_MAGENTA : List Char := "\x1b[1;35m".data
def COLOR_REVERSE : List Char := "\x1b[7m".data

/-- `strrchr(name, '.')`: the suffix of the character list starting at the
last `'.'`, when one exists. -/
def last_dot_suffix : List Char → Option (List Char)
  | [] => none
  | c :: rest =>
    match last_dot_suffix rest with
    | some s => some s
    | none => if c == '.' then some (c :: rest) else none

def has_archive_ext (name : String) : Bool :=
  match last_dot_suffix name.data with
  | none => false
  | some dot => dot == ".tar".data || dot == ".gz".data || dot == ".zip".data

def color_of (name : String) (st : Stat) : List Char :=
  if S_ISDIR st.mode then COLOR_BLUE
  else if S_ISLNK st.mode then COLOR_MAGENTA
  else if S_ISCHR st.mode || S_ISBLK st.mode || S_ISFIFO st.mode
          || S_ISSOCK st.mode then COLOR_REVERSE
  else if st.mode &&& (S_IXUSR ||| S_IXGRP ||| S_IXOTH) != 0 then COLOR_GREEN
  else if has_archive_ext name then COLOR_RED
  else COLOR_RESET

/-- `printf("%s%s%s", color, name, COLOR_RESET)`. -/
def print_with_color (name : String) (st : Stat) : List Char :=
  color_of name st ++ name.data ++ COLOR_RESET

/-! ## Down-then-across column renderer (`print_columns` of `src/ls.c`)

The renderer is split, as the C is, into cell arithmetic (widths, column and
row counts, the column-major cell indexing) and per-cell text emission.  The
terminal width `W` is the resolved `term_width` (the `ioctl`-or-80 fallback
is outside the renderer's arithmetic). -/

def max_name_len (ents : List Entry) : Nat :=
  ents.foldl (fun m e => max m e.name.length) 0

/-- `size_t cols = term_width / (col_width == 0 ? 1 : col_width); if (cols < 1) cols = 1;` -/
def col_cols (ents : List Entry) (W : Nat) : Nat :=
  let col_width := max_name_len ents + 2
  let cols := W / (if col_width == 0 then 1 else col_width)
  if cols < 1 then 1 else cols

/-- `size_t rows = (count + cols - 1) / cols;` -/
def col_rows (ents : List Entry) (W : Nat) : Nat :=
  (ents.length + col_cols ents W - 1) / col_cols ents W

/-- `int pad = (int)col_width - (int)strlen(n); if (pad < 0) pad = 0;` -/
def col_pad (col_width len : Nat) : Nat :=
  if (col_width : Int) - (len : Int) < 0 then 0 else col_width - len

/-- One row of the grid: cells `c = 0 .. cols-1`, cell `(r, c)` holding entry
`c * rows + r`; the `idx >= count` cells are skipped (`continue`). -/
def col_line (ents : List Entry) (rows cols r : Nat) : List Entry :=
  (List.range cols).filterMap fun c => ents.get? (c * rows + r)

def colLines (ents : List Entry) (W : Nat) : List (List Entry) :=
  if ents.isEmpty then []
  else
    (List.range (col_rows ents W)).map
      (col_line ents (col_rows ents W) (col_cols ents W))

/-- Text of one column row, newline included: each occupied cell prints the
colored name followed by `pad` spaces. -/
def render_col_line (col_width : Nat) (line : List Entry) : List Char :=
  (line.flatMap fun e =>
    print_with_color e.name e.st ++
      List.replicate (col_pad col_width e.name.length) ' ') ++ ['\n']

/-! ## Across (row-major) renderer (`print_horizontal` of `src/ls.c`) -/

/-- `int pad = (int)col_width - (int)len; if (pad < 1) pad = 1;` -/
def h_pad (col_width len : Nat) : Nat :=
  if (col_width : Int) - (len : Int) < 1 then 1 else col_width - len

/-- Width an entry occupies on the line: the name plus its padding. -/
def h_cell_width (col_width : Nat) (e : Entry) : Nat :=
  e.name.length + h_pad col_width e.name.length

def line_width (col_width : Nat) (l : List Entry) : Nat :=
  (l.map (h_cell_width col_width)).sum

/-- `e` prepended to the first line of `ls` (the continuation of the line
being built). -/
def cons_head (e : Entry) : List (List Entry) → List (List Entry)
  | [] => [[e]]
  | l :: ls => (e :: l) :: ls

/-- The line structure emitted by `print_horizontal`'s loop from running
width `curw` on: before printing `e`, if `curw + strlen(e) + 1 > W` a line
break is emitted and the width resets; then `e` is printed with its padding.
The trailing `[[]]`-tail models the final `putchar('\n')`. -/
def h_chunks (col_width W : Nat) : Nat → List Entry → List (List Entry)
  | _, [] => [[]]
  | curw, e :: rest =>
    let len := e.name.length
    if curw + len + 1 > W then
      [] :: cons_head e (h_chunks col_width W (h_cell_width col_width e) rest)
    else
      cons_head e (h_chunks col_width W (curw + h_cell_width col_width e) rest)

def hLines (ents : List Entry) (W : Nat) : List (List Entry) :=
  if ents.isEmpty then []
  else h_chunks (max_name_len ents + 2) W 0 ents

/-- Text of one across-row, newline included. -/
def render_h_line (col_width : Nat) (line : List Entry) : List Char :=
  (line.flatMap fun e =>
    print_with_color e.name e.st ++
      List.replicate (h_pad col_width e.name.length) ' ') ++ ['\n']

/-! ## Long-format renderer (`print_long_listing` of `src/ls.c`)

External collaborators are an explicit environment: `pw`/`gr` model
`getpwuid`/`getgrgid` (name lookup may fail), `lt_ok` models whether
`localtime` succeeds for a given mtime, and `strf` models `strftime` applied
to a format string and the decoded mtime. -/

structure Env where
  pw : Nat → Option String
  gr : Nat → Option String
  lt_ok : Int → Bool
  strf : String → Int → String

/-- `printf` minimum-width right alignment (`%3ld`, `%8lld`). -/
def pad_left (w : Nat) (s : List Char) : List Char :=
  List.replicate (w - s.length) ' ' ++ s

/-- `printf` minimum-width left alignment (`%-8s`). -/
def pad_right (w : Nat) (s : List Char) : List Char :=
  s ++ List.replicate (w - s.length) ' '

/-- The `timebuf` the renderer passes to `printf`, given the selected form. -/
def timebuf (env : Env) (form : TimeForm) (mtime : Int) : String :=
  match form with
  | TimeForm.unk => time_format_string TimeForm.unk
  | f => env.strf (time_format_string f) mtime

/-- One line of `src/ls.c`'s long listing (lines 178-207), newline not
included: `"%s %3ld %-8s %-8s %8lld %s "` then the colored name, then
`" -> target"` when the entry is a link with a non-empty recorded target. -/
def long_line (env : Env) (e : Entry) : List Char :=
  build_perm_string e.st.mode
  ++ ' ' :: pad_left 3 (toString e.st.nlink).data
  ++ ' ' :: pad_right 8 ((env.pw e.st.uid).getD "unknown").data
  ++ ' ' :: pad_right 8 ((env.gr e.st.gid).getD "unknown").data
  ++ ' ' :: pad_left 8 (toString e.st.size).data
  ++ ' ' :: (timebuf env (ls_time_form (env.lt_ok e.st.mtime)) e.st.mtime).data
  ++ ' ' :: print_with_color e.name e.st
  ++ (if e.is_link && !e.link_target.isEmpty
      then ' ' :: '-' :: '>' :: ' ' :: e.link_target.data else [])

/-- The corresponding line of `src/ls-v1.1.0.c`'s long listing differs (among
cosmetics) in the timestamp: the six-month threshold picks the year form.
Only the format selection is embedded, via `v110_time_form`; see `C2`. -/
def v110_timebuf (env : Env) (now mtime : Int) : String :=
  timebuf env (v110_time_form (env.lt_ok mtime) now mtime) mtime

/-! ## Mode dispatch of `list_dir` (`src/ls.c` lines 309-314)

`mode` is the C int: 1 = `-l`, 2 = `-x`, anything else = default columns. -/

def renderLines (env : Env) (W : Nat) (mode : Nat) (ents : List Entry) :
    List (List Char) :=
  if mode == 1 then ents.map (fun e => long_line env e ++ ['\n'])
  else if mode == 2 then (hLines ents W).map (render_h_line (max_name_len ents + 2))
  else (colLines ents W).map (render_col_line (max_name_len ents + 2))

/-- The sequence of entry names a rendering emits, read off the layout that
`renderLines` prints: the long format prints one entry per line in order, the
across layout prints the `hLines` rows left to right, the default layout
prints the `colLines` grid row by row. -/
def emitted_names (W : Nat) (mode : Nat) (ents : List Entry) : List String :=
  if mode == 1 then ents.map Entry.name
  else if mode == 2 then (hLines ents W).flatten.map Entry.name
  else (colLines ents W).flatten.map Entry.name

/-! ## Recursive walker (`list_dir` of `src/ls.c`, lines 295-337) and `main`

The filesystem is a map from directory path to its raw `readdir` stream
(`none` = `opendir` fails).  `Output.out` is the stdout lines (a blank
separator line is `[]`), `Output.err` the reported error contexts (`perror`
arguments).  Recursion depth is bounded by explicit fuel; every claim is
settled at a sufficient fuel. -/

structure Output where
  out : List (List Char)
  err : List String
deriving DecidableEq, Repr

/-- `join_path` of `src/ls.c` (lines 281-292). -/
def join_path (parent child : String) : String :=
  if parent == "" then child
  else if parent.endsWith "/" then parent ++ child
  else parent ++ "/" ++ child

/-- The entries `list_dir` recurses into, in array (= sorted) order:
`S_ISDIR(st_mode)` on the entry's own `lstat` mode, skipping `.`/`..`. -/
def recurse_children (arr : List Entry) : List Entry :=
  arr.filter fun e => S_ISDIR e.st.mode && !(e.name == ".") && !(e.name == "..")

def list_dir (env : Env) (fs : String → Option (List RawDirent)) (W : Nat) :
    Nat → Nat → Bool → String → Output
  | 0, _, _, _ => ⟨[], []⟩
  | fuel+1, mode, rec, path =>
    match fs path with
    | none => ⟨[], [path]⟩
    | some d =>
      let p := read_dir_entries_r path d
      let arr := sortEntries p.1
      let subs : List Output :=
        if rec then
          (recurse_children arr).map fun e =>
            list_dir env fs W fuel mode rec (join_path path e.name)
        else []
      ⟨(if rec then [path.data ++ [':']] else []) ++ renderLines env W mode arr
         ++ (subs.map fun s => [] :: s.out).flatten,
       p.2 ++ (subs.map Output.err).flatten⟩

/-- The path loop of `main` (`src/ls.c` lines 357-364): each target after the
first is preceded by a blank line; no targets means listing `"."`. -/
def main_run (env : Env) (fs : String → Option (List RawDirent)) (W : Nat)
    (fuel mode : Nat) (rec : Bool) : List String → Output
  | [] => list_dir env fs W fuel mode rec "."
  | p :: ps =>
    let first := list_dir env fs W fuel mode rec p
    let rest := ps.map fun q =>
      let s := list_dir env fs W fuel mode rec q
      Output.mk ([] :: s.out) s.err
    ⟨first.out ++ (rest.map Output.out).flatten,
     first.err ++ (rest.map Output.err).flatten⟩

/-! ## Fixtures: concrete inputs used by witnesses and counterexamples -/

def st_reg : Stat := { mode := 0o100644, nlink := 1, uid := 0, gid := 0, size := 0, mtime := 0 }

def st_dir : Stat := { mode := 0o040755, nlink := 2, uid := 0, gid := 0, size := 0, mtime := 0 }

def st_lnk : Stat := { mode := 0o120777, nlink := 1, uid := 0, gid := 0, size := 0, mtime := 0 }

def mkE (n : String) : Entry := { name := n, st := st_reg, is_link := false, link_target := "" }

def ents3 : List Entry := [mkE "a", mkE "bb", mkE "ccc"]

def ents_hx : List Entry := [mkE "aaa", mkE "x"]

def env0 : Env :=
  { pw := fun _ => none, gr := fun _ => none, lt_ok := fun _ => true,
    strf := fun fmt _ => fmt }

def de_reg (n : String) : RawDirent := { d_name := n, lst := some st_reg, readlink_res := none }

def de_hidden : RawDirent := { d_name := ".cfg", lst := some st_reg, readlink_res := none }

def de_bad : RawDirent := { d_name := "bad", lst := none, readlink_res := none }

def de_sym : RawDirent := { d_name := "s", lst := some st_lnk, readlink_res := some "t" }

def de_symfail : RawDirent := { d_name := "s", lst := some st_lnk, readlink_res := none }

def de_subdir (n : String) : RawDirent := { d_name := n, lst := some st_dir, readlink_res := none }

/-- Fixture filesystem for the walker claims: `"r"` holds a plain file, a real
subdirectory `"sub"` and a symlink `"sl"` pointing at a directory; `"r/sub"`
is empty-but-for-hidden; everything else (in particular `"r/sl"`) is
unopenable. -/
def fs_walk : String → Option (List RawDirent) :=
  fun p =>
    if p == "r" then some [de_subdir "sub", de_sym, de_reg "f"]
    else if p == "r/sub" then some [de_hidden]
    else none

/-- Fixture filesystem for the multi-target claim: `"good1"` and `"good2"`
open fine, `"badd"` does not. -/
def fs_targets : String → Option (List RawDirent) :=
  fun p =>
    if p == "good1" then some [de_reg "f1"]
    else if p == "good2" then some [de_reg "f2"]
    else none

/-! ## Helper lemmas shared by the claim theorems -/

theorem land_land (m a b : Nat) : m &&& a &&& b = m &&& (a &&& b) :=
  Nat.and_assoc m a b

theorem insert_by_name_perm (e : Entry) (l : List Entry) :
    (insert_by_name e l).Perm (e :: l) := by
  induction l with
  | nil => simp [insert_by_name]
  | cons x xs ih =>
    simp only [insert_by_name]
    split
    · exact List.Perm.refl _
    · exact (List.Perm.cons x ih).trans (List.Perm.swap e x xs)

theorem sortEntries_perm (l : List Entry) : (sortEntries l).Perm l := by
  induction l with
  | nil => exact List.Perm.refl _
  | cons x xs ih =>
    exact (insert_by_name_perm x (sortEntries xs)).trans (List.Perm.cons x ih)

theorem foldl_max_init_le (l : List Entry) :
    ∀ acc : Nat, acc ≤ l.foldl (fun m e => max m e.name.length) acc := by
  induction l with
  | nil => intro acc; exact Nat.le_refl acc
  | cons x xs ih =>
    intro acc
    exact Nat.le_trans (Nat.le_max_left acc x.name.length) (ih _)

theorem le_max_name_len {e : Entry} {ents : List Entry} (h : e ∈ ents) :
    e.name.length ≤ max_name_len ents := by
  unfold max_name_len
  generalize (0 : Nat) = acc
  induction ents generalizing acc with
  | nil => cases h
  | cons x xs ih =>
    rcases List.mem_cons.mp h with rfl | hmem
    · exact Nat.le_trans (Nat.le_max_right acc e.name.length) (foldl_max_init_le xs _)
    · exact ih hmem _

theorem mem_of_mem_col_line {e : Entry} {ents : List Entry} {rows cols r : Nat}
    (h : e ∈ col_line ents rows cols r) : e ∈ ents := by
  unfold col_line at h
  rcases List.mem_filterMap.mp h with ⟨c, _, hc⟩
  exact List.get?_mem hc

theorem col_cols_pos (ents : List Entry) (W : Nat) : 0 < col_cols ents W := by
  show 0 < if W / (max_name_len ents + 2) < 1 then 1
           else W / (max_name_len ents + 2)
  split
  · exact Nat.one_pos
  · omega

theorem length_le_cols_mul_rows (ents : List Entry) (W : Nat) (h : ents ≠ []) :
    ents.length ≤ col_cols ents W * col_rows ents W := by
  have hcount : 0 < ents.length := List.length_pos.mpr h
  have hcols := col_cols_pos ents W
  have hdm := Nat.div_add_mod (ents.length + col_cols ents W - 1) (col_cols ents W)
  have hmod := Nat.mod_lt (ents.length + col_cols ents W - 1) hcols
  unfold col_rows
  omega

theorem col_rows_pos (ents : List Entry) (W : Nat) (h : ents ≠ []) :
    0 < col_rows ents W := by
  have hcount : 0 < ents.length := List.length_pos.mpr h
  have := length_le_cols_mul_rows ents W h
  by_contra hr
  push_neg at hr
  interval_cases hrows' : col_rows ents W
  omega

/-- The list of flat entry indices the column grid visits, in emission order
(rows outer, columns inner). -/
theorem col_index_list_perm (count rows cols : Nat) (hrows : 0 < rows)
    (hcount : count ≤ cols * rows) :
    ((List.range rows).flatMap fun r =>
      (List.range cols).filterMap fun c =>
        if c * rows + r < count then some (c * rows + r) else none).Perm
      (List.range count) := by
  apply List.perm_of_nodup_nodup_toFinset_eq
  · rw [List.nodup_flatMap]
    constructor
    · intro r _
      apply List.Nodup.filterMap _ (List.nodup_range cols)
      intro c c' b hb hb'
      rw [Option.mem_def] at hb hb'
      split at hb
      · split at hb'
        · have h1 := Option.some_injective _ hb
          have h2 := Option.some_injective _ hb'
          have : c * rows = c' * rows := by omega
          exact Nat.eq_of_mul_eq_mul_right hrows this
        · cases hb'
      · cases hb
    · apply List.Pairwise.imp_of_mem _ (List.pairwise_lt_range rows)
      intro r r' hr hr' hlt
      intro b hbr hbr'
      rcases List.mem_filterMap.mp hbr with ⟨c, _, hc⟩
      rcases List.mem_filterMap.mp hbr' with ⟨c', _, hc'⟩
      split at hc
      · split at hc'
        · have h1 := Option.some_injective _ hc
          have h2 := Option.some_injective _ hc'
          have hrlt : r < rows := List.mem_range.mp hr
          have hrlt' : r' < rows := List.mem_range.mp hr'
          have e1 : b % rows = r := by
            rw [← h1, Nat.add_comm, Nat.add_mul_mod_self_right, Nat.mod_eq_of_lt hrlt]
          have e2 : b % rows = r' := by
            rw [← h2, Nat.add_comm, Nat.add_mul_mod_self_right, Nat.mod_eq_of_lt hrlt']
          omega
        · cases hc'
      · cases hc
  · exact List.nodup_range count
  · apply Finset.ext
    intro b
    simp only [List.mem_toFinset, List.mem_flatMap, List.mem_filterMap, List.mem_range]
    constructor
    · rintro ⟨r, hr, c, hc, hb⟩
      split at hb
      · have := Option.some_injective _ hb
        omega
      · cases hb
    · intro hb
      refine ⟨b % rows, Nat.mod_lt b hrows, b / rows, ?_, ?_⟩
      · rw [Nat.div_lt_iff_lt_mul hrows]
        exact Nat.lt_of_lt_of_le hb hcount
      · rw [if_pos]
        · rw [Nat.mul_comm, Nat.div_add_mod b rows]
        · rw [Nat.mul_comm, Nat.div_add_mod b rows]
          exact hb

theorem filterMap_get_range (l : List Entry) :
    (List.range l.length).filterMap l.get? = l := by
  induction l with
  | nil => rfl
  | cons x xs ih =>
    have h0 : List.range (x :: xs).length = 0 :: (List.range xs.length).map Nat.succ := by
      rw [List.length_cons, List.range_succ_eq_map]
    have h1 : ∀ i, (x :: xs).get? (Nat.succ i) = xs.get? i := fun i => rfl
    rw [h0]
    simp only [List.filterMap_cons, List.get?_cons_zero, List.filterMap_map,
      Function.comp_def, h1, ih]

theorem filterMap_flatMap_eq {α β γ : Type} (l : List α) (f : α → List β)
    (g : β → Option γ) :
    (l.flatMap f).filterMap g = l.flatMap fun x => (f x).filterMap g := by
  induction l with
  | nil => rfl
  | cons x xs ih => simp [List.flatMap_cons, List.filterMap_append, ih]

theorem col_line_eq_filterMap (ents : List Entry) (rows cols r : Nat) :
    col_line ents rows cols r =
      ((List.range cols).filterMap fun c =>
        if c * rows + r < ents.length then some (c * rows + r) else none).filterMap
        ents.get? := by
  unfold col_line
  rw [List.filterMap_filterMap]
  apply List.filterMap_congr
  intro c _
  by_cases hlt : c * rows + r < ents.length
  · simp [hlt]
  · simp only [if_neg hlt, Option.none_bind, List.get?_eq_none]
    omega

theorem colLines_flatten_perm (ents : List Entry) (W : Nat) :
    ((colLines ents W).flatten).Perm ents := by
  by_cases hne : ents = []
  · subst hne; rfl
  · have hrows := col_rows_pos ents W hne
    have hcount := length_le_cols_mul_rows ents W hne
    have hflat : (colLines ents W).flatten =
        ((List.range (col_rows ents W)).flatMap fun r =>
          (List.range (col_cols ents W)).filterMap fun c =>
            if c * col_rows ents W + r < ents.length
            then some (c * col_rows ents W + r) else none).filterMap ents.get? := by
      unfold colLines
      rw [if_neg (by simp [hne]), ← List.flatMap_def]
      have hfun : col_line ents (col_rows ents W) (col_cols ents W) = fun r =>
          ((List.range (col_cols ents W)).filterMap fun c =>
            if c * col_rows ents W + r < ents.length
            then some (c * col_rows ents W + r) else none).filterMap ents.get? := by
        funext r
        exact col_line_eq_filterMap ents _ _ r
      rw [hfun, ← filterMap_flatMap_eq]
    rw [hflat]
    have hperm :=
      (col_index_list_perm ents.length (col_rows ents W) (col_cols ents W)
        hrows hcount).filterMap ents.get?
    rw [filterMap_get_range] at hperm
    exact hperm

theorem cons_head_flatten (e : Entry) (ls : List (List Entry)) :
    (cons_head e ls).flatten = e :: ls.flatten := by
  cases ls <;> simp [cons_head]

theorem h_chunks_flatten (colW W : Nat) (ents : List Entry) :
    ∀ curw, (h_chunks colW W curw ents).flatten = ents := by
  induction ents with
  | nil => intro curw; rfl
  | cons e rest ih =>
    intro curw
    unfold h_chunks
    dsimp only
    split
    · rw [List.flatten_cons, cons_head_flatten, ih]
      rfl
    · rw [cons_head_flatten, ih]

theorem hLines_flatten (ents : List Entry) (W : Nat) :
    (hLines ents W).flatten = ents := by
  unfold hLines
  split
  · rename_i hemp
    rw [List.isEmpty_iff.mp hemp]
    rfl
  · exact h_chunks_flatten _ _ _ _

theorem line_width_nil (colW : Nat) : line_width colW [] = 0 := rfl

theorem line_width_cons (colW : Nat) (a : Entry) (l : List Entry) :
    line_width colW (a :: l) = h_cell_width colW a + line_width colW l := by
  simp [line_width]

theorem h_pad_eq_max (colW len : Nat) : h_pad colW len = max 1 (colW - len) := by
  rw [Nat.max_def]
  unfold h_pad
  split <;> split <;> omega

/-- Structure of the across renderer's loop output, generalized over the
running width `curw` the loop starts from: the result is a nonempty list of
lines whose concatenation is the input; within the first (continuation) line
every entry fitted (its test `curw + width-so-far + len + 1 ≤ W` failed to
break); within every later line every non-first entry fitted; and every
later line starts exactly because its first entry overflowed the line before
it. -/
theorem h_chunks_spec (colW W : Nat) (ents : List Entry) :
    ∀ curw, ∃ l₀ ls, h_chunks colW W curw ents = l₀ :: ls ∧
      (∀ p e s, l₀ = p ++ e :: s →
        curw + line_width colW p + e.name.length + 1 ≤ W) ∧
      (∀ l ∈ ls, ∀ p e s, l = p ++ e :: s → p ≠ [] →
        line_width colW p + e.name.length + 1 ≤ W) ∧
      (∀ l ∈ ls.head?, ∃ e s, l = e :: s ∧
        W < curw + line_width colW l₀ + e.name.length + 1) ∧
      List.Chain' (fun a b => ∃ e s, b = e :: s ∧
        W < line_width colW a + e.name.length + 1) ls := by
  induction ents with
  | nil =>
    intro curw
    refine ⟨[], [], rfl, ?_, ?_, ?_, List.chain'_nil⟩
    · intro p e s hp
      exact absurd hp (by simp)
    · intro l hl
      cases hl
    · intro l hl
      exact absurd hl (by simp)
  | cons e rest ih =>
    intro curw
    by_cases hbrk : curw + e.name.length + 1 > W
    · obtain ⟨l₀', ls', heq, hl₀', hls', hhead', hchain'⟩ := ih (h_cell_width colW e)
      refine ⟨[], (e :: l₀') :: ls', ?_, ?_, ?_, ?_, ?_⟩
      · unfold h_chunks
        dsimp only
        rw [if_pos hbrk, heq]
        rfl
      · intro p x s hp
        exact absurd hp (by simp)
      · intro l hl p x s hdec hpne
        rcases List.mem_cons.mp hl with rfl | hmem
        · cases p with
          | nil => exact absurd rfl hpne
          | cons q p' =>
            rw [List.cons_append] at hdec
            injection hdec with h1 h2
            have hfit := hl₀' p' x s h2
            rw [line_width_cons]
            subst h1
            omega
        · exact hls' l hmem p x s hdec hpne
      · intro l hl
        simp only [List.head?_cons, Option.mem_def, Option.some.injEq] at hl
        refine ⟨e, l₀', hl.symm, ?_⟩
        rw [line_width_nil]
        omega
      · rw [List.chain'_cons']
        refine ⟨?_, hchain'⟩
        intro b hb
        obtain ⟨x, s, hbx, hgt⟩ := hhead' b hb
        refine ⟨x, s, hbx, ?_⟩
        rw [line_width_cons]
        omega
    · obtain ⟨l₀', ls', heq, hl₀', hls', hhead', hchain'⟩ := ih (curw + h_cell_width colW e)
      refine ⟨e :: l₀', ls', ?_, ?_, hls', ?_, hchain'⟩
      · unfold h_chunks
        dsimp only
        rw [if_neg hbrk, heq]
        rfl
      · intro p x s hdec
        cases p with
        | nil =>
          rw [List.nil_append] at hdec
          injection hdec with h1 h2
          rw [line_width_nil]
          subst h1
          omega
        | cons q p' =>
          rw [List.cons_append] at hdec
          injection hdec with h1 h2
          have hfit := hl₀' p' x s h2
          rw [line_width_cons]
          subst h1
          omega
      · intro l hl
        obtain ⟨x, s, hlx, hgt⟩ := hhead' l hl
        refine ⟨x, s, hlx, ?_⟩
        rw [line_width_cons] at *
        omega

theorem entry_of_name (de : RawDirent) (st : Stat) :
    (entry_of de st).name = de.d_name := by
  unfold entry_of
  split <;> rfl

theorem entry_of_st (de : RawDirent) (st : Stat) : (entry_of de st).st = st := by
  unfold entry_of
  split <;> rfl

theorem entry_of_is_link (de : RawDirent) (st : Stat) :
    (entry_of de st).is_link = S_ISLNK st.mode := by
  unfold entry_of
  split
  · rename_i h
    exact h.symm
  · rename_i h
    exact (Bool.not_eq_true _).mp h |>.symm

theorem entry_of_link_target (de : RawDirent) (st : Stat) :
    (entry_of de st).link_target =
      if S_ISLNK st.mode then de.readlink_res.getD "" else "" := by
  unfold entry_of
  split <;> rfl

theorem mem_read_entries (path : String) (dir : List RawDirent) (e : Entry) :
    e ∈ (read_dir_entries_r path dir).1 ↔
      ∃ de ∈ dir, ¬name_is_hidden de.d_name = true ∧
        ∃ st, de.lst = some st ∧ e = entry_of de st := by
  induction dir with
  | nil =>
    simp [read_dir_entries_r]
  | cons de rest ih =>
    unfold read_dir_entries_r
    by_cases hd : name_is_hidden de.d_name = true
    · rw [if_pos hd]
      rw [ih]
      constructor
      · rintro ⟨d, hd', hnh, st, hst, he⟩
        exact ⟨d, List.mem_cons_of_mem de hd', hnh, st, hst, he⟩
      · rintro ⟨d, hd', hnh, st, hst, he⟩
        rcases List.mem_cons.mp hd' with rfl | hmem
        · exact absurd hd hnh
        · exact ⟨d, hmem, hnh, st, hst, he⟩
    · rw [if_neg hd]
      rcases hdl : de.lst with _ | st
      · dsimp only
        rw [ih]
        constructor
        · rintro ⟨d, hd', hnh, st, hst, he⟩
          exact ⟨d, List.mem_cons_of_mem de hd', hnh, st, hst, he⟩
        · rintro ⟨d, hd', hnh, st, hst, he⟩
          rcases List.mem_cons.mp hd' with rfl | hmem
          · rw [hdl] at hst
            cases hst
          · exact ⟨d, hmem, hnh, st, hst, he⟩
      · dsimp only
        rw [List.mem_cons, ih]
        constructor
        · rintro (rfl | ⟨d, hd', hnh, st', hst, he⟩)
          · exact ⟨de, List.mem_cons_self de rest, hd, st, hdl, rfl⟩
          · exact ⟨d, List.mem_cons_of_mem de hd', hnh, st', hst, he⟩
        · rintro ⟨d, hd', hnh, st', hst, he⟩
          rcases List.mem_cons.mp hd' with rfl | hmem
          · rw [hdl] at hst
            injection hst with hst'
            left
            rw [he, hst']
          · right
            exact ⟨d, hmem, hnh, st', hst, he⟩

theorem read_entries_append_lstat_fail (path : String) (pre post : List RawDirent)
    (bad : RawDirent) (hh : ¬name_is_hidden bad.d_name = true)
    (hb : bad.lst = none) :
    read_dir_entries_r path (pre ++ bad :: post) =
      ((read_dir_entries_r path pre).1 ++ (read_dir_entries_r path post).1,
       (read_dir_entries_r path pre).2 ++
         full_path path bad.d_name :: (read_dir_entries_r path post).2) := by
  induction pre with
  | nil =>
    simp only [List.nil_append, read_dir_entries_r]
    rw [if_neg hh, hb]
  | cons d pre' ih =>
    simp only [List.cons_append, read_dir_entries_r]
    by_cases hd : name_is_hidden d.d_name = true
    · rw [if_pos hd, if_pos hd]
      exact ih
    · rw [if_neg hd, if_neg hd]
      rcases hdl : d.lst with _ | st
      · dsimp only
        simp only [List.append_eq]
        rw [ih]
        simp
      · dsimp only
        simp only [List.append_eq]
        rw [ih]
        simp

theorem collect_append_lstat_fail (path : String) (pre post : List RawDirent)
    (bad : RawDirent) (hh : ¬name_is_hidden bad.d_name = true)
    (hb : bad.lst = none) :
    collect_directory_r path (pre ++ bad :: post) =
      ((collect_directory_r path pre).1 ++
         { name := bad.d_name, st := zero_stat, is_link := false,
           link_target := "" } :: (collect_directory_r path post).1,
       (collect_directory_r path pre).2 ++ (collect_directory_r path post).2) := by
  induction pre with
  | nil =>
    simp only [List.nil_append, collect_directory_r]
    rw [if_neg hh, hb]
  | cons d pre' ih =>
    simp only [List.cons_append, collect_directory_r]
    by_cases hd : name_is_hidden d.d_name = true
    · rw [if_pos hd, if_pos hd]
      exact ih
    · rw [if_neg hd, if_neg hd]
      rcases hdl : d.lst with _ | st
      · dsimp only
        simp only [List.append_eq]
        rw [ih]
        simp
      · dsimp only
        simp only [List.append_eq]
        rw [ih]
        simp

theorem collect_errs_nil (path : String) (dir : List RawDirent) :
    (collect_directory_r path dir).2 = [] := by
  induction dir with
  | nil => rfl
  | cons de rest ih =>
    simp only [collect_directory_r]
    by_cases hd : name_is_hidden de.d_name = true
    · rw [if_pos hd]
      exact ih
    · rw [if_neg hd]
      rcases hdl : de.lst with _ | st
      · dsimp only
        exact ih
      · dsimp only
        exact ih

theorem flatten_render_ends_newline (colW : Nat) (L : List (List Entry))
    (hne : L ≠ []) :
    ∃ pre, ((L.map (render_h_line colW)).flatten) = pre ++ ['\n'] := by
  induction L with
  | nil => exact absurd rfl hne
  | cons x xs ih =>
    cases xs with
    | nil =>
      refine ⟨x.flatMap fun e =>
        print_with_color e.name e.st ++
          List.replicate (h_pad colW e.name.length) ' ', ?_⟩
      simp [render_h_line]
    | cons y ys =>
      obtain ⟨pre, hpre⟩ := ih (by simp)
      refine ⟨render_h_line colW x ++ pre, ?_⟩
      rw [List.map_cons, List.flatten_cons, hpre, List.append_assoc]

end Ls

namespace Claims

open Ls

/-- C1 counterexample: the permission encoder of the current source
(`build_perm_string` in `src/ls.c`) does not implement the setuid rule the
claim states: for mode `0o104755` (regular file, setuid, owner `rwx`) it
yields `'x'` — not `'s'` — in the owner-execute slot, so its output differs
from the claimed encoding `"-rwsr-xr-x"`. -/
theorem C1_counterexample :
    build_perm_string 0o104755 ≠ encode_spec 0o104755 ∧
    build_perm_string 0o104755 = "-rwxr-xr-x".data ∧
    encode_spec 0o104755 = "-rwsr-xr-x".data ∧
    0o104755 &&& S_ISUID ≠ 0 ∧ 0o104755 &&& S_IXUSR ≠ 0 := by
  refine ⟨by decide, by decide, by decide, by decide, by decide⟩

/-- C1 (amended): both permission encoders are total and deterministic and
return exactly 10 characters; the `src/ls-v1.1.0.c` encoder realizes the
claimed rule (type-glyph priority d, l, c, b, p, s, `-`, and `s`/`S`, `s`/`S`,
`t`/`T` in the three execute slots) for every mode value, while the
`src/ls.c` encoder realizes the claimed rule with the setuid/setgid/sticky
bits masked away (its execute slots are plain `x`/`-`).  Both agree on the
claim's example: a regular file `rwxr-xr--` without special bits encodes to
`"-rwxr-xr--"`, and the v1.1.0 encoder sends a setuid+exec directory to
`"drwsr-xr-x"`. -/
theorem C1_perm_encoding :
    (∀ m : Nat, build_perm_string_v110 m = encode_spec m ∧
      (build_perm_string_v110 m).length = 10) ∧
    (∀ m : Nat, build_perm_string m = encode_spec (m &&& 0o170777) ∧
      (build_perm_string m).length = 10) ∧
    build_perm_string_v110 0o100754 = "-rwxr-xr--".data ∧
    build_perm_string 0o100754 = "-rwxr-xr--".data ∧
    build_perm_string_v110 0o044755 = "drwsr-xr-x".data := by
  refine ⟨fun m => ⟨rfl, rfl⟩, fun m => ⟨?_, rfl⟩, by decide, by decide, by decide⟩
  have t0 : (61951 : Nat) &&& 61440 = 61440 := by decide
  have t1 : (61951 : Nat) &&& 256 = 256 := by decide
  have t2 : (61951 : Nat) &&& 128 = 128 := by decide
  have t3 : (61951 : Nat) &&& 2048 = 0 := by decide
  have t4 : (61951 : Nat) &&& 64 = 64 := by decide
  have t5 : (61951 : Nat) &&& 32 = 32 := by decide
  have t6 : (61951 : Nat) &&& 16 = 16 := by decide
  have t7 : (61951 : Nat) &&& 1024 = 0 := by decide
  have t8 : (61951 : Nat) &&& 8 = 8 := by decide
  have t9 : (61951 : Nat) &&& 4 = 4 := by decide
  have t10 : (61951 : Nat) &&& 2 = 2 := by decide
  have t11 : (61951 : Nat) &&& 512 = 0 := by decide
  have t12 : (61951 : Nat) &&& 1 = 1 := by decide
  simp [build_perm_string, encode_spec, type_glyph, S_ISDIR, S_ISLNK, S_ISCHR,
    S_ISBLK, S_ISFIFO, S_ISSOCK, S_IFMT, S_IFDIR, S_IFLNK, S_IFCHR, S_IFBLK,
    S_IFIFO, S_IFSOCK, S_ISUID, S_ISGID, S_ISVTX, S_IRUSR, S_IWUSR, S_IXUSR,
    S_IRGRP, S_IWGRP, S_IXGRP, S_IROTH, S_IWOTH, S_IXOTH, land_land,
    t0, t1, t2, t3, t4, t5, t6, t7, t8, t9, t10, t11, t12]

/-- C2 counterexample: in the current source (`print_long_listing` of
`src/ls.c`) the timestamp of a decodable mtime 7 months in the past (absolute
difference above the claimed `6*30*24*3600` threshold) is still rendered in
the hour-minute form, never the year form the claim requires. -/
theorem C2_counterexample :
    |(-18144000 : Int) - 0| > six_months ∧
    ls_time_form true = TimeForm.hm ∧ TimeForm.hm ≠ TimeForm.year := by
  refine ⟨by norm_num [six_months], rfl, by decide⟩

/-- C2 (amended): the claimed threshold rule is the one of
`src/ls-v1.1.0.c`: for a decodable mtime the year form is selected exactly
when `|mtime - now|` exceeds `6*30*24*3600` seconds (so an entry 7 months old
gets the year form and one 1 month old the hour-minute form), and an
undecodable mtime gets the placeholder; the long-format renderer of
`src/ls.c` instead never selects the year form. -/
theorem C2_long_timestamp :
    (∀ now mtime : Int,
      (v110_time_form true now mtime = TimeForm.year ↔ |mtime - now| > six_months) ∧
      v110_time_form false now mtime = TimeForm.unk) ∧
    (∀ now : Int, v110_time_form true now (now - 7 * 30 * 24 * 3600) = TimeForm.year) ∧
    (∀ now : Int, v110_time_form true now (now - 30 * 24 * 3600) = TimeForm.hm) ∧
    (∀ ok : Bool, ls_time_form ok ≠ TimeForm.year) := by
  have key : ∀ now mtime : Int,
      (now - mtime > six_months ∨ mtime - now > six_months) ↔
        |mtime - now| > six_months := by
    intro now mtime
    simp only [gt_iff_lt]
    rw [lt_abs, neg_sub]
    tauto
  refine ⟨fun now mtime => ⟨?_, rfl⟩, fun now => ?_, fun now => ?_, fun ok => ?_⟩
  · rw [← key now mtime]
    by_cases h : now - mtime > six_months ∨ mtime - now > six_months
    · simp [v110_time_form, h]
    · simp only [v110_time_form, if_neg h, h, iff_false]
      decide
  · have h : now - (now - 7 * 30 * 24 * 3600) > six_months := by
      simp only [six_months]; omega
    exact if_pos (Or.inl h)
  · have h : ¬(now - (now - 30 * 24 * 3600) > six_months ∨
        (now - 30 * 24 * 3600) - now > six_months) := by
      simp only [six_months]; omega
    exact if_neg h
  · cases ok <;> decide

/-- C3: the down-then-across renderer computes columns as
`floor(W / (maxNameLen + 2))` clamped to at least 1, rows as
`ceil(count / cols)` (stated by the two tight bounds
`count ≤ cols * rows < count + cols`), its output grid is row-by-row with
cell `(r, c)` holding entry `c * rows + r` when in range (`colLines` /
`col_line`), and the entry at flat index `i` sits at column `i / rows`, row
`i % rows`. -/
theorem C3_column_layout (ents : List Entry) (W : Nat) (h : ents ≠ []) :
    col_cols ents W = max 1 (W / (max_name_len ents + 2)) ∧
    ents.length ≤ col_cols ents W * col_rows ents W ∧
    col_cols ents W * col_rows ents W < ents.length + col_cols ents W ∧
    colLines ents W =
      (List.range (col_rows ents W)).map
        (col_line ents (col_rows ents W) (col_cols ents W)) ∧
    (∀ i, i < ents.length →
      i % col_rows ents W < col_rows ents W ∧
      i / col_rows ents W < col_cols ents W ∧
      ents.get? (i / col_rows ents W * col_rows ents W + i % col_rows ents W) =
        ents.get? i) := by
  have hcols_eq : col_cols ents W = max 1 (W / (max_name_len ents + 2)) := by
    show (if W / (max_name_len ents + 2) < 1 then 1
          else W / (max_name_len ents + 2)) = _
    rcases Nat.eq_zero_or_pos (W / (max_name_len ents + 2)) with h0 | h0
    · simp [h0]
    · rw [if_neg (by omega)]
      omega
  have hcount : 0 < ents.length := List.length_pos.mpr h
  have hcols : 0 < col_cols ents W := by rw [hcols_eq]; omega
  have hdm := Nat.div_add_mod (ents.length + col_cols ents W - 1) (col_cols ents W)
  have hmod := Nat.mod_lt (ents.length + col_cols ents W - 1) hcols
  have hle : ents.length ≤ col_cols ents W * col_rows ents W := by
    unfold col_rows
    omega
  have hlt : col_cols ents W * col_rows ents W < ents.length + col_cols ents W := by
    unfold col_rows
    omega
  have hrows : 0 < col_rows ents W := by
    by_contra hr
    push_neg at hr
    interval_cases hrows' : col_rows ents W
    omega
  refine ⟨hcols_eq, hle, hlt, ?_, fun i hi => ?_⟩
  · unfold colLines
    rw [if_neg (by simp [h])]
  · refine ⟨Nat.mod_lt i hrows, ?_, ?_⟩
    · rw [Nat.div_lt_iff_lt_mul hrows]
      exact Nat.lt_of_lt_of_le hi hle
    · have : i / col_rows ents W * col_rows ents W + i % col_rows ents W = i := by
        rw [Nat.mul_comm]
        exact Nat.div_add_mod i (col_rows ents W)
      rw [this]

/-- C3 witness: the claim's own example — three names `a`, `bb`, `ccc` at
terminal width 20 give column width 5, 4 columns, 1 row, and a single row of
the three entries padded with 4, 3 and 2 spaces. -/
theorem C3_column_layout_witness :
    (max_name_len ents3 = 3 ∧ col_cols ents3 20 = 4 ∧ col_rows ents3 20 = 1 ∧
     colLines ents3 20 = [[mkE "a", mkE "bb", mkE "ccc"]] ∧
     col_pad 5 1 = 4 ∧ col_pad 5 2 = 3 ∧ col_pad 5 3 = 2) ∧
    ents3.length ≤ col_cols ents3 20 * col_rows ents3 20 :=
  ⟨by decide, (C3_column_layout ents3 20 (by decide)).2.1⟩

/-- C10: every cell the column renderer prints is right-padded to the full
column content width `maxNameLen + 2` (the negative-pad clamp is never
needed, so the pad is exactly `colWidth - nameLen` and at least 2), and hence
every output line with at least one occupied cell ends in at least two
spaces immediately before its newline. -/
theorem C10_column_padding (ents : List Entry) (W : Nat) (line : List Entry)
    (hline : line ∈ colLines ents W) :
    (∀ e ∈ line,
      col_pad (max_name_len ents + 2) e.name.length =
        (max_name_len ents + 2) - e.name.length ∧
      2 ≤ col_pad (max_name_len ents + 2) e.name.length) ∧
    (line ≠ [] →
      ∃ pre, render_col_line (max_name_len ents + 2) line =
        pre ++ [' ', ' ', '\n']) := by
  have hmem : ∀ e ∈ line, e ∈ ents := by
    intro e he
    unfold colLines at hline
    split at hline
    · cases hline
    · rcases List.mem_map.mp hline with ⟨r, _, hr⟩
      exact mem_of_mem_col_line (hr ▸ he)
  have hpad : ∀ e ∈ line,
      col_pad (max_name_len ents + 2) e.name.length =
        (max_name_len ents + 2) - e.name.length ∧
      2 ≤ col_pad (max_name_len ents + 2) e.name.length := by
    intro e he
    have hlen : e.name.length ≤ max_name_len ents := le_max_name_len (hmem e he)
    unfold col_pad
    rw [if_neg (by omega)]
    omega
  refine ⟨hpad, fun hne => ?_⟩
  rcases List.eq_nil_or_concat line with rfl | ⟨L, a, rfl⟩
  · exact absurd rfl hne
  have ha : a ∈ L.concat a := by simp
  have hpa := (hpad a ha).2
  refine ⟨(L.flatMap fun e =>
      print_with_color e.name e.st ++
        List.replicate (col_pad (max_name_len ents + 2) e.name.length) ' ') ++
      print_with_color a.name a.st ++
      List.replicate (col_pad (max_name_len ents + 2) a.name.length - 2) ' ', ?_⟩
  unfold render_col_line
  rw [List.concat_eq_append, List.flatMap_append]
  have hsplit : List.replicate (col_pad (max_name_len ents + 2) a.name.length) ' ' =
      List.replicate (col_pad (max_name_len ents + 2) a.name.length - 2) ' ' ++
        [' ', ' '] := by
    have h2 : col_pad (max_name_len ents + 2) a.name.length =
        (col_pad (max_name_len ents + 2) a.name.length - 2) + 2 := by omega
    rw [h2, List.replicate_add]
    rfl
  rw [List.flatMap_singleton, hsplit]
  simp [List.append_assoc]

/-- C10 witness: in the claim's three-name layout the last occupied cell of
the single row is padded with 2 spaces and the rendered row ends in two
spaces before the newline. -/
theorem C10_column_padding_witness :
    2 ≤ col_pad (max_name_len ents3 + 2) (mkE "ccc").name.length ∧
    ∃ pre, render_col_line (max_name_len ents3 + 2) [mkE "a", mkE "bb", mkE "ccc"] =
      pre ++ [' ', ' ', '\n'] := by
  have h := C10_column_padding ents3 20 [mkE "a", mkE "bb", mkE "ccc"] (by decide)
  exact ⟨(h.1 (mkE "ccc") (by decide)).2, h.2 (by decide)⟩

/-- C5: for every raw directory stream and every display mode, the sequence
of names the renderer emits is a permutation of the names of the entries the
reader produced; when every non-hidden child's metadata resolves, those are
exactly the non-hidden children's names in order (none dropped, none
invented); distinct children give distinct emitted names; and a directory
containing only hidden children produces an empty reader result (no error
reported) and zero output lines in every mode. -/
theorem C5_name_set (path : String) (dir : List RawDirent) (W : Nat) :
    (∀ mode : Nat,
      (emitted_names W mode (sortEntries (read_dir_entries_r path dir).1)).Perm
        (((read_dir_entries_r path dir).1).map Entry.name)) ∧
    ((∀ de ∈ dir, ¬name_is_hidden de.d_name → de.lst ≠ none) →
      ((read_dir_entries_r path dir).1).map Entry.name =
        ((dir.filter fun de => !name_is_hidden de.d_name).map RawDirent.d_name)) ∧
    ((dir.map RawDirent.d_name).Nodup →
      ((dir.filter fun de => !name_is_hidden de.d_name).map RawDirent.d_name).Nodup) ∧
    ((∀ de ∈ dir, name_is_hidden de.d_name) →
      read_dir_entries_r path dir = ([], []) ∧
      ∀ (env : Env) (mode : Nat),
        renderLines env W mode (sortEntries (read_dir_entries_r path dir).1) = []) := by
  refine ⟨fun mode => ?_, fun hok => ?_, fun hnd => ?_, fun hhid => ?_⟩
  · have hsort : ((sortEntries (read_dir_entries_r path dir).1).map Entry.name).Perm
        (((read_dir_entries_r path dir).1).map Entry.name) :=
      (sortEntries_perm _).map Entry.name
    unfold emitted_names
    split
    · exact hsort
    · split
      · rw [hLines_flatten]
        exact hsort
      · exact ((colLines_flatten_perm _ _).map Entry.name).trans hsort
  · induction dir with
    | nil => rfl
    | cons de rest ih =>
      have hde := hok de (List.mem_cons_self de rest)
      have hrest : ∀ d ∈ rest, ¬name_is_hidden d.d_name → d.lst ≠ none :=
        fun d hd => hok d (List.mem_cons_of_mem de hd)
      unfold read_dir_entries_r
      by_cases hh : name_is_hidden de.d_name
      · simp only [hh, if_pos, List.filter_cons]
        rw [if_neg (by simp [hh])]
        exact ih hrest
      · rw [if_neg (by simp [hh])]
        rcases hlst : de.lst with _ | st
        · exact absurd hlst (hde hh)
        · rw [List.filter_cons, if_pos (by simp [hh])]
          dsimp only
          simp [List.map_cons, ih hrest, entry_of_name]
  · have hsub : ((dir.filter fun de => !name_is_hidden de.d_name).map
        RawDirent.d_name).Sublist (dir.map RawDirent.d_name) :=
      (List.filter_sublist dir).map RawDirent.d_name
    exact hnd.sublist hsub
  · have hread : read_dir_entries_r path dir = ([], []) := by
      induction dir with
      | nil => rfl
      | cons de rest ih =>
        have hde := hhid de (List.mem_cons_self de rest)
        have hrest : ∀ d ∈ rest, name_is_hidden d.d_name :=
          fun d hd => hhid d (List.mem_cons_of_mem de hd)
        unfold read_dir_entries_r
        rw [ih hrest, if_pos hde]
    refine ⟨hread, fun env mode => ?_⟩
    rw [hread]
    show renderLines env W mode (sortEntries []) = []
    unfold renderLines
    split
    · rfl
    · split
      · rfl
      · rfl

/-- C5 witness: a mixed directory (`b`, hidden `.cfg`, `a`) emits exactly the
non-hidden names, and a hidden-only directory reads to an empty, error-free
entry set. -/
theorem C5_name_set_witness :
    ((read_dir_entries_r "d" [de_reg "b", de_hidden, de_reg "a"]).1).map Entry.name =
      (([de_reg "b", de_hidden, de_reg "a"].filter
        fun de => !name_is_hidden de.d_name).map RawDirent.d_name) ∧
    read_dir_entries_r "d" [de_hidden] = ([], []) :=
  ⟨(C5_name_set "d" [de_reg "b", de_hidden, de_reg "a"] 80).2.1 (by decide),
   ((C5_name_set "d" [de_hidden] 80).2.2.2 (by decide)).1⟩

/-- C4 counterexample: with names `aaa`, `x` (column content width 5) and
terminal width 7, after printing `aaa` the running width is 5 and one more
column would reach 10 > 7, so the claim's break rule would start a new line —
but the code keeps `x` on the same line (its test is `5 + strlen("x") + 1 >
7`, which fails), emitting a single line. -/
theorem C4_counterexample :
    hLines ents_hx 7 = [[mkE "aaa", mkE "x"]] ∧
    7 < line_width (max_name_len ents_hx + 2) [mkE "aaa"] +
      (max_name_len ents_hx + 2) := by
  exact ⟨by decide, by decide⟩

/-- C4 (amended): the across renderer emits the entries left to right in
input (sorted) order, never breaking mid-entry; a line break is inserted
before an entry exactly when the running line width plus that entry's name
length plus one would exceed the terminal width (not "plus one more column"):
within a line every entry after the first satisfied
`width-so-far + len + 1 ≤ W`, and each subsequent line begins with an entry
for which the previous line's width plus its name length plus one exceeded
`W`; every printed entry is padded to the column content width with a
minimum of one space; and the output of a nonempty entry set always ends
with a newline. -/
theorem C4_across_layout (ents : List Entry) (W : Nat) :
    (hLines ents W).flatten = ents ∧
    (∀ line ∈ hLines ents W, ∀ p e s, line = p ++ e :: s → p ≠ [] →
      line_width (max_name_len ents + 2) p + e.name.length + 1 ≤ W) ∧
    List.Chain' (fun a b => ∃ e s, b = e :: s ∧
      W < line_width (max_name_len ents + 2) a + e.name.length + 1)
      (hLines ents W) ∧
    (∀ len, h_pad (max_name_len ents + 2) len =
      max 1 ((max_name_len ents + 2) - len)) ∧
    (ents ≠ [] →
      ∃ pre, (((hLines ents W).map
        (render_h_line (max_name_len ents + 2))).flatten) = pre ++ ['\n']) := by
  refine ⟨hLines_flatten ents W, ?_, ?_, fun len => h_pad_eq_max _ len, ?_⟩
  · intro line hline p e s hdec hpne
    by_cases hne : ents = []
    · rw [hne] at hline
      cases hline
    · obtain ⟨l₀, ls, heq, hl₀, hls, hhead, hchain⟩ :=
        h_chunks_spec (max_name_len ents + 2) W ents 0
      have hl : hLines ents W = l₀ :: ls := by
        unfold hLines
        rw [if_neg (by simp [hne])]
        exact heq
      rw [hl] at hline
      rcases List.mem_cons.mp hline with rfl | hmem
      · have := hl₀ p e s hdec
        omega
      · exact hls line hmem p e s hdec hpne
  · by_cases hne : ents = []
    · rw [show hLines ents W = [] by unfold hLines; rw [if_pos (by simp [hne])]]
      exact List.chain'_nil
    · obtain ⟨l₀, ls, heq, hl₀, hls, hhead, hchain⟩ :=
        h_chunks_spec (max_name_len ents + 2) W ents 0
      have hl : hLines ents W = l₀ :: ls := by
        unfold hLines
        rw [if_neg (by simp [hne])]
        exact heq
      rw [hl, List.chain'_cons']
      refine ⟨?_, hchain⟩
      intro b hb
      obtain ⟨e, s, hbe, hgt⟩ := hhead b hb
      exact ⟨e, s, hbe, by omega⟩
  · intro hne
    obtain ⟨l₀, ls, heq, _, _, _, _⟩ :=
      h_chunks_spec (max_name_len ents + 2) W ents 0
    have hl : hLines ents W = l₀ :: ls := by
      unfold hLines
      rw [if_neg (by simp [hne])]
      exact heq
    rw [hl]
    exact flatten_render_ends_newline _ _ (by simp)

/-- C4 witness: in the width-7 run, `x` stays on the first line because
`5 + 1 + 1 ≤ 7`; in a width-5 run the two names do split into two lines yet
their concatenation is still the full entry list. -/
theorem C4_across_layout_witness :
    line_width (max_name_len ents_hx + 2) [mkE "aaa"] +
      (mkE "x").name.length + 1 ≤ 7 ∧
    (hLines ents_hx 5).flatten = ents_hx ∧ hLines ents_hx 5 = [[mkE "aaa"], [mkE "x"]] :=
  ⟨(C4_across_layout ents_hx 7).2.1 [mkE "aaa", mkE "x"] (by decide)
      [mkE "aaa"] (mkE "x") [] (by decide) (by decide),
   (C4_across_layout ents_hx 5).1, by decide⟩

/-- C6 counterexample: in the v1.1.0 reader (`collect_directory` of
`src/ls-v1.1.0.c`, one of the claim's two cited sources) an `lstat` failure
is silent — for a directory containing the failing child `bad` and the
healthy child `z`, the error channel is empty (nothing is reported,
contradicting the claim's "it is reported") and the bad child is kept with
zero-filled metadata rather than dropped. -/
theorem C6_counterexample :
    de_bad.lst = none ∧
    (collect_directory_r "d" [de_bad, de_reg "z"]).2 = [] ∧
    (collect_directory_r "d" [de_bad, de_reg "z"]).1 =
      [{ name := "bad", st := zero_stat, is_link := false, link_target := "" },
       { name := "z", st := st_reg, is_link := false, link_target := "" }] :=
  ⟨rfl, by decide, by decide⟩

/-- C6 (amended): a metadata failure for one specific child is local in both
readers — enumeration continues with the remaining children and one bad
entry never aborts the listing of its siblings.  In the current reader
(`read_dir_entries` of `src/ls.c`) the failure is reported (the child's full
path goes to the error channel) and the child is dropped; in the v1.1.0
reader (`collect_directory`) nothing is reported — its entry loop's error
channel is always empty — and the child is kept with zeroed metadata. -/
theorem C6_local_metadata_policy (path : String) (pre post : List RawDirent)
    (bad : RawDirent) (hh : ¬name_is_hidden bad.d_name = true)
    (hb : bad.lst = none) :
    read_dir_entries_r path (pre ++ bad :: post) =
      ((read_dir_entries_r path pre).1 ++ (read_dir_entries_r path post).1,
       (read_dir_entries_r path pre).2 ++
         full_path path bad.d_name :: (read_dir_entries_r path post).2) ∧
    collect_directory_r path (pre ++ bad :: post) =
      ((collect_directory_r path pre).1 ++
         { name := bad.d_name, st := zero_stat, is_link := false,
           link_target := "" } :: (collect_directory_r path post).1,
       (collect_directory_r path pre).2 ++ (collect_directory_r path post).2) ∧
    (∀ dir : List RawDirent, (collect_directory_r path dir).2 = []) :=
  ⟨read_entries_append_lstat_fail path pre post bad hh hb,
   collect_append_lstat_fail path pre post bad hh hb,
   fun dir => collect_errs_nil path dir⟩

/-- C6 witness: with `a` before and `z` after a child whose `lstat` fails,
the current reader emits `a` and `z` and reports `d/bad`, while the v1.1.0
reader emits `a`, the zero-filled `bad` and `z` with nothing reported. -/
theorem C6_local_metadata_policy_witness :
    read_dir_entries_r "d" ([de_reg "a"] ++ de_bad :: [de_reg "z"]) =
      ((read_dir_entries_r "d" [de_reg "a"]).1 ++
         (read_dir_entries_r "d" [de_reg "z"]).1,
       (read_dir_entries_r "d" [de_reg "a"]).2 ++
         full_path "d" de_bad.d_name ::
           (read_dir_entries_r "d" [de_reg "z"]).2) ∧
    collect_directory_r "d" ([de_reg "a"] ++ de_bad :: [de_reg "z"]) =
      ((collect_directory_r "d" [de_reg "a"]).1 ++
         { name := de_bad.d_name, st := zero_stat, is_link := false,
           link_target := "" } :: (collect_directory_r "d" [de_reg "z"]).1,
       (collect_directory_r "d" [de_reg "a"]).2 ++
         (collect_directory_r "d" [de_reg "z"]).2) :=
  ⟨(C6_local_metadata_policy "d" [de_reg "a"] [de_reg "z"] de_bad
      (by decide) (by decide)).1,
   (C6_local_metadata_policy "d" [de_reg "a"] [de_reg "z"] de_bad
      (by decide) (by decide)).2.1⟩

/-- C7: when `opendir` fails for a target directory, `list_dir` for that
path produces no stdout lines at all (no header, no entries) and reports the
path on the error channel; and in a multi-target run the other targets are
still fully processed — the failed target contributes only its blank
separator line and its error report. -/
theorem C7_unopenable_dir (env : Env) (fs : String → Option (List RawDirent))
    (W fuel mode : Nat) (rec : Bool) (bad p q : String)
    (hbad : fs bad = none) :
    list_dir env fs W (fuel + 1) mode rec bad = ⟨[], [bad]⟩ ∧
    (main_run env fs W (fuel + 1) mode rec [p, bad, q]).out =
      (list_dir env fs W (fuel + 1) mode rec p).out ++ [[], []] ++
        (list_dir env fs W (fuel + 1) mode rec q).out ∧
    (main_run env fs W (fuel + 1) mode rec [p, bad, q]).err =
      (list_dir env fs W (fuel + 1) mode rec p).err ++ bad ::
        (list_dir env fs W (fuel + 1) mode rec q).err := by
  have h1 : list_dir env fs W (fuel + 1) mode rec bad = ⟨[], [bad]⟩ := by
    unfold list_dir
    rw [hbad]
  refine ⟨h1, ?_, ?_⟩ <;> simp [main_run, h1]

/-- C7 witness: target `badd` is unopenable in `fs_targets`; its listing is
empty with the error reported, while `good1` and `good2` are processed. -/
theorem C7_unopenable_dir_witness :
    list_dir env0 fs_targets 80 1 0 false "badd" = ⟨[], ["badd"]⟩ ∧
    (main_run env0 fs_targets 80 1 0 false ["good1", "badd", "good2"]).out =
      (list_dir env0 fs_targets 80 1 0 false "good1").out ++ [[], []] ++
        (list_dir env0 fs_targets 80 1 0 false "good2").out :=
  ⟨(C7_unopenable_dir env0 fs_targets 80 0 0 false "badd" "good1" "good2"
      (by decide)).1,
   (C7_unopenable_dir env0 fs_targets 80 0 0 false "badd" "good1" "good2"
      (by decide)).2.1⟩

/-- C8 counterexample: a symlink child whose `readlink` fails produces an
Entry with `is_link = true` but an empty `link_target`, so "`linkTarget` is
set if and only if `isSymlink`" fails in the only-if direction. -/
theorem C8_counterexample :
    (read_dir_entries_r "d" [de_symfail]).1 =
      [{ name := "s", st := st_lnk, is_link := true, link_target := "" }] ∧
    ({ name := "s", st := st_lnk, is_link := true,
       link_target := "" } : Entry).is_link = true ∧
    ({ name := "s", st := st_lnk, is_link := true,
       link_target := "" } : Entry).link_target = "" :=
  ⟨by decide, rfl, rfl⟩

/-- C8 (amended): every constructed Entry has a non-empty name (given the
directory stream never yields empty names, which `readdir` guarantees);
`is_link` equals the link-non-following `S_ISLNK` test on the entry's own
mode; a non-empty `link_target` occurs only on symlink entries; and whenever
the child is a symlink and its `readlink` succeeds, the constructed entry
carries that target.  (The "if" direction of the claim's iff holds only when
`readlink` succeeds on a non-empty target — see the counterexample.) -/
theorem C8_entry_invariants (path : String) (dir : List RawDirent) :
    (∀ e ∈ (read_dir_entries_r path dir).1,
      ((∀ de ∈ dir, de.d_name ≠ "") → e.name ≠ "") ∧
      e.is_link = S_ISLNK e.st.mode ∧
      (e.link_target ≠ "" → e.is_link = true)) ∧
    (∀ de ∈ dir, ¬name_is_hidden de.d_name = true → ∀ st, de.lst = some st →
      S_ISLNK st.mode = true → ∀ t, de.readlink_res = some t →
      ({ name := de.d_name, st := st, is_link := true,
         link_target := t } : Entry) ∈ (read_dir_entries_r path dir).1) := by
  constructor
  · intro e he
    obtain ⟨de, hde, hnh, st, hst, rfl⟩ := (mem_read_entries path dir e).mp he
    refine ⟨fun hall => ?_, ?_, ?_⟩
    · rw [entry_of_name]
      exact hall de hde
    · rw [entry_of_is_link, entry_of_st]
    · rw [entry_of_link_target, entry_of_is_link]
      split
      · intro _
        assumption
      · intro hcon
        exact absurd rfl hcon
  · intro de hde hnh st hst hlnk t ht
    apply (mem_read_entries path dir _).mpr
    refine ⟨de, hde, hnh, st, hst, ?_⟩
    unfold entry_of
    rw [if_pos hlnk, ht]
    rfl

/-- C8 witness: a successfully resolved symlink child yields the entry
`s -> t` with its target set, and its fields satisfy the invariants. -/
theorem C8_entry_invariants_witness :
    ({ name := "s", st := st_lnk, is_link := true,
       link_target := "t" } : Entry) ∈ (read_dir_entries_r "d" [de_sym]).1 ∧
    ∀ e ∈ (read_dir_entries_r "d" [de_sym]).1, e.is_link = S_ISLNK e.st.mode :=
  ⟨(C8_entry_invariants "d" [de_sym]).2 de_sym (by decide) (by decide)
      st_lnk rfl (by decide) "t" rfl,
   fun e he => ((C8_entry_invariants "d" [de_sym]).1 e he).2.1⟩

/-- C9: the recursive walk descends only into entries whose own
link-non-following mode is a directory: the recursion set is a sublist of
the (sorted) entry array filtered on `S_ISDIR` of the entry's own mode, a
mode can never be both a directory and a symlink (so symlinked directories
are never traversed), and one unfolding of `list_dir` shows the walk is
pre-order — the directory's own header and listing first, then, in sorted
order, a blank line followed by the depth-first walk of each recursion
child. -/
theorem C9_recursion_gate :
    (∀ (arr : List Entry) (e : Entry), e ∈ recurse_children arr →
      e ∈ arr ∧ S_ISDIR e.st.mode = true ∧ S_ISLNK e.st.mode = false) ∧
    (∀ m : Nat, ¬(S_ISDIR m = true ∧ S_ISLNK m = true)) ∧
    (∀ (env : Env) (fs : String → Option (List RawDirent)) (W fuel mode : Nat)
      (path : String) (d : List RawDirent), fs path = some d →
      list_dir env fs W (fuel + 1) mode true path =
        ⟨(path.data ++ [':']) ::
           renderLines env W mode (sortEntries (read_dir_entries_r path d).1) ++
           ((recurse_children (sortEntries (read_dir_entries_r path d).1)).map
             (fun e => [] :: (list_dir env fs W fuel mode true
               (join_path path e.name)).out)).flatten,
         (read_dir_entries_r path d).2 ++
           ((recurse_children (sortEntries (read_dir_entries_r path d).1)).map
             (fun e => (list_dir env fs W fuel mode true
               (join_path path e.name)).err)).flatten⟩) := by
  have hdirlnk : ∀ m : Nat, ¬(S_ISDIR m = true ∧ S_ISLNK m = true) := by
    intro m ⟨h1, h2⟩
    unfold S_ISDIR at h1
    unfold S_ISLNK at h2
    rw [beq_iff_eq] at h1 h2
    rw [h1] at h2
    exact absurd h2 (by decide)
  refine ⟨fun arr e he => ?_, hdirlnk, fun env fs W fuel mode path d hfs => ?_⟩
  · unfold recurse_children at he
    have hm := List.mem_filter.mp he
    have hdir : S_ISDIR e.st.mode = true := by
      have := hm.2
      simp only [Bool.and_eq_true] at this
      exact this.1.1
    refine ⟨hm.1, hdir, ?_⟩
    rcases hlnk : S_ISLNK e.st.mode with _ | _
    · rfl
    · exact absurd ⟨hdir, hlnk⟩ (hdirlnk e.st.mode)
  · conv_lhs => rw [list_dir]
    rw [hfs]
    dsimp only
    rw [if_pos rfl, if_pos rfl]
    simp [List.map_map, Function.comp_def]

/-- C9 witness: in `fs_walk`, directory `r` holds a real subdirectory `sub`,
a symlink `sl` whose own mode is `S_IFLNK`, and a file; the recursion set of
the sorted entries contains the `sub` entry (a directory, not a symlink),
and unfolding the walk at `r` shows the pre-order structure. -/
theorem C9_recursion_gate_witness :
    (({ name := "sub", st := st_dir, is_link := false,
        link_target := "" } : Entry) ∈
        recurse_children
          (sortEntries
            (read_dir_entries_r "r" [de_subdir "sub", de_sym, de_reg "f"]).1) →
      S_ISDIR st_dir.mode = true ∧ S_ISLNK st_dir.mode = false) ∧
    ¬(S_ISDIR st_lnk.mode = true ∧ S_ISLNK st_lnk.mode = true) ∧
    list_dir env0 fs_walk 80 2 0 true "r" =
      ⟨("r".data ++ [':']) ::
         renderLines env0 80 0
           (sortEntries
             (read_dir_entries_r "r" [de_subdir "sub", de_sym, de_reg "f"]).1) ++
         ((recurse_children
             (sortEntries
               (read_dir_entries_r "r" [de_subdir "sub", de_sym, de_reg "f"]).1)).map
           (fun e => [] :: (list_dir env0 fs_walk 80 1 0 true
             (join_path "r" e.name)).out)).flatten,
       (read_dir_entries_r "r" [de_subdir "sub", de_sym, de_reg "f"]).2 ++
         ((recurse_children
             (sortEntries
               (read_dir_entries_r "r" [de_subdir "sub", de_sym, de_reg "f"]).1)).map
           (fun e => (list_dir env0 fs_walk 80 1 0 true
             (join_path "r" e.name)).err)).flatten⟩ :=
  ⟨fun hmem => ⟨(C9_recursion_gate.1 _ _ hmem).2.1,
      (C9_recursion_gate.1 _ _ hmem).2.2⟩,
   C9_recursion_gate.2.1 st_lnk.mode,
   C9_recursion_gate.2.2 env0 fs_walk 80 1 0 "r" _ (by decide)⟩

end Claims
